import Mathlib

/-!
Shallow embedding of the zip_map repository's map-generation core
(`src/utils.py`), covering key normalization, the left merge of value rows
onto ZIP boundary geometries, proximity imputation, the unassigned report,
style classification, the exclave relocation transforms, and the reference
data loading behaviour.
-/

namespace ZipMap

/-! ## Reference label offsets (utils.py lines 11-20) -/

/-- One record of `state_abbv_offsets.json`. -/
structure StateLoc where
  STATE_ABBR : String
  label_x : Rat
  label_y : Rat
deriving DecidableEq, Repr

/-- Model of `find_state_loc` (utils.py lines 11-15): first record with matching
abbreviation, else `None`. -/
def find_state_loc (state_abbr : String) (state_locs : List StateLoc) :
    Option StateLoc :=
  state_locs.find? (fun loc => loc.STATE_ABBR == state_abbr)

/-- Per-process I/O state: how many times the offsets file has been opened. -/
structure ProcState where
  offsetsLoads : Nat
deriving DecidableEq, Repr

/-- Model of `get_state_locs` (utils.py lines 18-20): opens and parses
`state_abbv_offsets.json` unconditionally on every call.  The file system is
modelled by the parsed content `fs`; each call performs one file read. -/
def get_state_locs (fs : List StateLoc) (s : ProcState) :
    List StateLoc × ProcState :=
  (fs, ⟨s.offsetsLoads + 1⟩)

/-- Iterated calls: `n` successive calls of `get_state_locs`, returning the final state. -/
def get_state_locs_iter (fs : List StateLoc) (s : ProcState) : Nat → ProcState
  | 0 => s
  | n + 1 => (get_state_locs fs (get_state_locs_iter fs s n)).2

/-! ## Key normalization (utils.py lines 50-51) -/

/-- Python `str.zfill`: left-pad with `'0'` to `width` characters, keeping a
leading sign character in front of the padding; strings already at least
`width` long are returned unchanged. -/
def zfill (s : String) (width : Nat) : String :=
  if width ≤ s.length then s
  else
    let pad := List.replicate (width - s.length) '0'
    match s.data with
    | [] => String.mk pad
    | c :: rest =>
      if c = '+' ∨ c = '-' then String.mk (c :: (pad ++ rest))
      else String.mk (pad ++ (c :: rest))

/-- One row of the caller's input table: the geographic key column and the
value column. -/
structure ValueRow where
  key : String
  value : String
deriving DecidableEq, Repr

/-- Model of `data_df[zip_col] = data_df[zip_col].astype(str).str.zfill(5)`
(utils.py line 51), applied to a fresh copy of the table. -/
def normalizeRows (rows : List ValueRow) : List ValueRow :=
  rows.map (fun r => ⟨zfill r.key 5, r.value⟩)

/-! ## Left merge onto ZIP geometries (utils.py lines 56-66) -/

/-- One reference geometry row of `zip_code_boundaries.shp`; only the
`ZIP_CODE` key participates in the merge and report logic. -/
structure GeoUnit where
  zip : String
deriving DecidableEq, Repr

/-- One row of the merged frame `gdf`: the reference `ZIP_CODE` and the
value column, `none` standing for pandas `NaN`. -/
structure JoinedRow where
  zip : String
  value : Option String
deriving DecidableEq, Repr

/-- Model of `zip_gdf.merge(data_df, left_on="ZIP_CODE", right_on=zip_col, how="left")`
(utils.py lines 61-66): pandas left-merge semantics — every left row is kept
in order; a left row with k matching right rows is repeated once per match
(in right order), and a left row with no match gets a `NaN` value. -/
def leftMerge (zip_gdf : List GeoUnit) (rows : List ValueRow) :
    List JoinedRow :=
  zip_gdf.flatMap (fun g =>
    let ms := rows.filter (fun r => r.key == g.zip)
    if ms.isEmpty then [⟨g.zip, none⟩]
    else ms.map (fun r => ⟨g.zip, some r.value⟩))

/-- The merged frame as `generate_map` builds it: normalize the input keys,
then left-merge onto the reference geometries. -/
def pipelineJoined (zip_gdf : List GeoUnit) (rows : List ValueRow) :
    List JoinedRow :=
  leftMerge zip_gdf (normalizeRows rows)

/-! ## Proximity imputation (utils.py lines 76-95) -/

/-- The numeric value of a decimal digit character, `none` otherwise. -/
def charDigit (c : Char) : Option Nat :=
  if '0' ≤ c ∧ c ≤ '9' then some (c.toNat - '0'.toNat) else none

/-- Decimal parse of a character list, accumulator style; any non-digit
makes the parse fail. -/
def parseNatAux (acc : Nat) : List Char → Option Nat
  | [] => some acc
  | c :: cs =>
    match charDigit c with
    | some d => parseNatAux (acc * 10 + d) cs
    | none => none

/-- Python `int(s)` on a non-negative decimal string. -/
def parseNat (s : String) : Option Nat :=
  if s.data.isEmpty then none else parseNatAux 0 s.data

/-- Model of `gdf["ZIP_INT"] = gdf["ZIP_CODE"].astype(int)` (utils.py line 77) for one
ZIP string; reference ZIP codes are numeric strings. -/
def zipInt (s : String) : Int :=
  Int.ofNat ((parseNat s).getD 0)

/-- The `(ZIP_INT, value)` pairs of the rows that already carry a value
(utils.py lines 79-81), in frame order. -/
def assignedPairs (gdf : List JoinedRow) : List (Int × String) :=
  gdf.filterMap (fun r => r.value.map (fun v => (zipInt r.zip, v)))

/-- Model of `assigned_lookup` (utils.py lines 79-81): a dict keyed by `ZIP_INT`; on
duplicate keys the later row wins, as in `Series.to_dict`. -/
def assignedLookup (gdf : List JoinedRow) : Int → Option String :=
  fun z => (assignedPairs gdf).reverse.lookup z

/-- The search loop of `find_nearest_value` (utils.py lines 84-88), started
at radius `d` with `fuel` radii left to try. -/
def findNearestFrom (zip_int : Int) (lookup : Int → Option String)
    (d : Nat) (fuel : Nat) : String :=
  match fuel with
  | 0 => "unassigned"
  | fuel' + 1 =>
    match lookup (zip_int - d) with
    | some v => v
    | none =>
      match lookup (zip_int + d) with
      | some v => v
      | none => findNearestFrom zip_int lookup (d + 1) fuel'

/-- Model of `find_nearest_value` (utils.py lines 83-89): radii `1..max_radius` in
increasing order, `zip_int - d` before `zip_int + d`, sentinel
`"unassigned"` on exhaustion. -/
def find_nearest_value (zip_int : Int) (lookup : Int → Option String)
    (max_radius : Nat) : String :=
  findNearestFrom zip_int lookup 1 max_radius

/-- The `.loc[mask] = ...apply(...)` assignment (utils.py lines 91-93) on one
row: rows that already have a value are untouched; originally-`NaN` rows
receive `find_nearest_value` of their `ZIP_INT`. -/
def imputeRow (lookup : Int → Option String) (r : JoinedRow) : JoinedRow :=
  match r.value with
  | some _ => r
  | none => ⟨r.zip, some (find_nearest_value (zipInt r.zip) lookup 500)⟩

/-- The whole auto-fill block (utils.py lines 76-95): the lookup is built
from the pre-imputation frame, then every originally-unassigned row is
filled. -/
def imputeAll (gdf : List JoinedRow) : List JoinedRow :=
  gdf.map (imputeRow (assignedLookup gdf))

/-- The frame after the optional auto-fill step. -/
def pipelineAfterFill (zip_gdf : List GeoUnit) (rows : List ValueRow)
    (auto_fill_unassigned : Bool) : List JoinedRow :=
  let gdf := pipelineJoined zip_gdf rows
  if auto_fill_unassigned then imputeAll gdf else gdf

/-! ## Unassigned report (utils.py lines 71, 100-105) -/

/-- Model of `unassigned_df` (utils.py lines 100-105): the post-fill frame restricted
to the rows of `originally_unassigned_mask` (computed at line 71, before
imputation), projected to `(ZIP_CODE, assigned_value)` with residual `NaN`
rendered as `"unassigned"`. -/
def unassignedReport (zip_gdf : List GeoUnit) (rows : List ValueRow)
    (auto_fill_unassigned : Bool) : List (String × String) :=
  let gdf := pipelineJoined zip_gdf rows
  let filled := pipelineAfterFill zip_gdf rows auto_fill_unassigned
  (gdf.zip filled).filterMap (fun p =>
    if p.1.value.isNone then some (p.2.zip, p.2.value.getD "unassigned")
    else none)

/-! ## Style classification (utils.py lines 231-245) -/

/-- The fixed hatch list (utils.py lines 233-239). -/
def hatches : List String := ["", "//", "..", "xx", "\\\\"]

/-- The style computed for sorted index `i` (utils.py lines 243-244):
`base_colors[i % len(base_colors)]` and `hatches[i // len(base_colors)]`.
`none` models a raised `IndexError`/`ZeroDivisionError`. -/
def styleEntry (base_colors : List String) (i : Nat) :
    Option (String × String) :=
  match base_colors[i % base_colors.length]?,
        hatches[i / base_colors.length]? with
  | some c, some h => some (c, h)
  | _, _ => none

/-- The `for i, val in enumerate(unique_vals)` loop (utils.py lines
242-245), starting at index `i`; `none` models an exception escaping the
loop. -/
def buildStyles (base_colors : List String) (i : Nat) :
    List String → Option (List (String × String × String))
  | [] => some []
  | v :: rest =>
    match styleEntry base_colors i, buildStyles base_colors (i + 1) rest with
    | some ch, some tl => some ((v, ch.1, ch.2) :: tl)
    | _, _ => none

/-- Model of `style_map` (utils.py lines 241-245) as the list of
`(value, color, hatch)` triples in sorted-value order. -/
def buildStyleMap (unique_vals : List String) (base_colors : List String) :
    Option (List (String × String × String)) :=
  buildStyles base_colors 0 unique_vals

/-- Model of `unique_vals = sorted(gdf[value_col].dropna().unique())` (utils.py line
231): drop `NaN`, deduplicate keeping first occurrences, sort ascending. -/
def unique_vals (gdf : List JoinedRow) : List String :=
  ((gdf.filterMap (fun r => r.value)).dedup).insertionSort (· ≤ ·)

/-! ## Exclave relocation (utils.py lines 144-146) -/

/-- Model of `shapely.affinity.scale(geom, xfact, yfact, origin=(0, 0))` on one
coordinate. -/
def scaleOrigin (xfact yfact : Rat) (p : Rat × Rat) : Rat × Rat :=
  (xfact * p.1, yfact * p.2)

/-- Model of `shapely.affinity.translate(geom, xoff, yoff)` on one coordinate. -/
def translatePt (xoff yoff : Rat) (p : Rat × Rat) : Rat × Rat :=
  (p.1 + xoff, p.2 + yoff)

/-- The Alaska relocation (utils.py lines 145-146): scale by `(0.45, 0.75)`
about the origin, then translate by `(-55, -23)`. -/
def alaskaTransform (p : Rat × Rat) : Rat × Rat :=
  translatePt (-55) (-23) (scaleOrigin (0.45) (0.75) p)

/-! ## Frame aliasing model (utils.py lines 50-51) -/

/-- A store of live data frames, addressed by position; `data_df.copy()`
allocates a new frame, column assignment mutates one frame in place. -/
abbrev FrameStore := List (List ValueRow)

/-- The normalization prologue of `generate_map` (utils.py lines 50-51) as a
store transformer: `data_df = data_df.copy()` appends a copy of the caller's
frame, then `data_df[zip_col] = ...` overwrites the copy in place.  Returns
the new store and the reference the rest of the function works on. -/
def normalizePrologue (store : FrameStore) (dfRef : Nat) :
    FrameStore × Nat :=
  let copyRef := List.length store
  let store1 := store ++ [store.getD dfRef []]
  let store2 := store1.set copyRef (normalizeRows (store1.getD copyRef []))
  (store2, copyRef)

/-! ## Concrete fixtures used by witnesses -/

/-- A lookup with assignments at 10001 and 10010, the spec's own imputation
example. -/
def lkC1 : Int → Option String :=
  fun z => if z = 10001 then some "A" else if z = 10010 then some "B" else none

/-! ## Helper lemmas -/

theorem findNearestFrom_exhaust (z : Int) (lookup : Int → Option String)
    (fuel : Nat) :
    ∀ d : Nat,
      (∀ e : Nat, d ≤ e → e < d + fuel →
        lookup (z - (e : Int)) = none ∧ lookup (z + (e : Int)) = none) →
      findNearestFrom z lookup d fuel = "unassigned" := by
  induction fuel with
  | zero => intro d _; rfl
  | succ n ih =>
    intro d h
    have h1 := h d le_rfl (by omega)
    simp only [findNearestFrom, h1.1, h1.2]
    exact ih (d + 1) (fun e he1 he2 => h e (by omega) (by omega))

theorem findNearestFrom_hit (z : Int) (lookup : Int → Option String)
    (fuel : Nat) :
    ∀ (d d₀ : Nat) (v : String), d ≤ d₀ → d₀ < d + fuel →
      (∀ e : Nat, d ≤ e → e < d₀ →
        lookup (z - (e : Int)) = none ∧ lookup (z + (e : Int)) = none) →
      (lookup (z - (d₀ : Int)) = some v ∨
        (lookup (z - (d₀ : Int)) = none ∧ lookup (z + (d₀ : Int)) = some v)) →
      findNearestFrom z lookup d fuel = v := by
  induction fuel with
  | zero => intro d d₀ v h1 h2 _ _; omega
  | succ n ih =>
    intro d d₀ v hle hlt hmiss hhit
    by_cases hd : d = d₀
    · subst hd
      rcases hhit with h1 | ⟨h1, h2⟩
      · simp only [findNearestFrom, h1]
      · simp only [findNearestFrom, h1, h2]
    · have h1 := hmiss d le_rfl (by omega)
      simp only [findNearestFrom, h1.1, h1.2]
      exact ih (d + 1) d₀ v (by omega) (by omega)
        (fun e he1 he2 => hmiss e (by omega) he2) hhit

theorem findNearestFrom_range (z : Int) (lookup : Int → Option String)
    (fuel : Nat) :
    ∀ d : Nat, findNearestFrom z lookup d fuel = "unassigned" ∨
      ∃ k, lookup k = some (findNearestFrom z lookup d fuel) := by
  induction fuel with
  | zero => intro d; left; rfl
  | succ n ih =>
    intro d
    cases h1 : lookup (z - (d : Int)) with
    | some v => right; exact ⟨z - (d : Int), by simp only [findNearestFrom, h1]⟩
    | none =>
      cases h2 : lookup (z + (d : Int)) with
      | some v => right; exact ⟨z + (d : Int), by simp only [findNearestFrom, h1, h2]⟩
      | none => simpa only [findNearestFrom, h1, h2] using ih (d + 1)

/-! ## Claim C1 -/

/-- C1: with auto-fill enabled, an originally-unassigned unit is imputed by
searching radii 1..500 in increasing order, testing `zip - d` before
`zip + d` at each radius and returning the first hit (so at equal distance
the numerically smaller neighbor's value wins), and falling back to the
sentinel `"unassigned"` when no radius up to 500 hits. -/
theorem find_nearest_value_spec (z : Int) (lookup : Int → Option String) :
    ((∀ e : Nat, 1 ≤ e → e ≤ 500 →
        lookup (z - (e : Int)) = none ∧ lookup (z + (e : Int)) = none) →
      find_nearest_value z lookup 500 = "unassigned")
    ∧ (∀ d : Nat, 1 ≤ d → d ≤ 500 →
        (∀ e : Nat, 1 ≤ e → e < d →
          lookup (z - (e : Int)) = none ∧ lookup (z + (e : Int)) = none) →
        (∀ v, lookup (z - (d : Int)) = some v →
          find_nearest_value z lookup 500 = v)
        ∧ (lookup (z - (d : Int)) = none →
            ∀ v, lookup (z + (d : Int)) = some v →
              find_nearest_value z lookup 500 = v)) := by
  constructor
  · intro h
    exact findNearestFrom_exhaust z lookup 500 1
      (fun e he1 he2 => h e he1 (by omega))
  · intro d hd1 hd2 hmiss
    constructor
    · intro v hv
      exact findNearestFrom_hit z lookup 500 1 d v hd1 (by omega) hmiss (Or.inl hv)
    · intro hnone v hv
      exact findNearestFrom_hit z lookup 500 1 d v hd1 (by omega) hmiss
        (Or.inr ⟨hnone, hv⟩)

/-- C1 witness: with assignments at 10001 and 10010, the unassigned ZIP
10005 resolves to the value at 10001 (distance 4 beats distance 5). -/
theorem find_nearest_value_spec_witness :
    find_nearest_value 10005 lkC1 500 = "A" := by
  have h := (find_nearest_value_spec 10005 lkC1).2 4 (by omega) (by omega)
    (by intro e h1 h2; interval_cases e <;> exact ⟨by decide, by decide⟩)
  exact h.1 "A" (by decide)

/-! ## Claim C6 -/

/-- C6 counterexample: after a first successful load, a second call of
`get_state_locs` performs another file read — the load count reaches 2,
not 1 as memoization would give. -/
theorem get_state_locs_reloads :
    (get_state_locs_iter [] ⟨0⟩ 2).offsetsLoads = 2 ∧
      ¬(get_state_locs_iter [] ⟨0⟩ 2).offsetsLoads = 1 := by
  decide

/-- C6 amended: nothing is memoized — every call of `get_state_locs`
re-opens and re-parses the offsets file, so `n` accesses perform `n` reads,
while each call does return the file's parsed content. -/
theorem get_state_locs_no_memoization (fs : List StateLoc) (s : ProcState)
    (n : Nat) :
    (get_state_locs_iter fs s n).offsetsLoads = s.offsetsLoads + n ∧
      (get_state_locs fs s).1 = fs := by
  refine ⟨?_, rfl⟩
  induction n with
  | zero => rfl
  | succ k ih =>
    simp only [get_state_locs_iter, get_state_locs, ih]
    omega

/-! ## Claim C7 -/

/-- C7: ZIP-key normalization left-pads with `'0'` to 5 characters
(`"501"` becomes `"00501"`, `"90210"` is unchanged, any key of at most 5
characters ends up exactly 5 characters long, longer keys pass through),
and never drops rows. -/
theorem zfill_normalization_spec :
    zfill "501" 5 = "00501" ∧ zfill "90210" 5 = "90210"
    ∧ (∀ s : String, s.length ≤ 5 → (zfill s 5).length = 5)
    ∧ (∀ s : String, 5 ≤ s.length → zfill s 5 = s)
    ∧ (∀ rows : List ValueRow, (normalizeRows rows).length = rows.length) := by
  refine ⟨by decide, by decide, ?_, ?_, ?_⟩
  · intro s hs
    rcases s with ⟨l⟩
    by_cases h5 : 5 ≤ String.length ⟨l⟩
    · simp only [zfill, if_pos h5]
      omega
    · simp only [zfill, if_neg h5]
      simp only [String.length] at hs h5 ⊢
      cases l with
      | nil => simp [String.length]
      | cons c rest =>
        by_cases hc : c = '+' ∨ c = '-'
        · simp only [if_pos hc, String.length, List.length_cons,
            List.length_append, List.length_replicate] at *
          omega
        · simp only [if_neg hc, String.length, List.length_cons,
            List.length_append, List.length_replicate] at *
          omega
  · intro s hs
    rcases s with ⟨l⟩
    simp only [zfill, String.length] at hs ⊢
    simp [hs]
  · intro rows
    simp [normalizeRows]

/-- C7 witness: a 2-character key is padded to exactly 5 characters. -/
theorem zfill_normalization_spec_witness : (zfill "42" 5).length = 5 :=
  zfill_normalization_spec.2.2.1 "42" (by decide)

/-! ## Claim C8 -/

/-- C8: the Alaska relocation maps `(x, y)` exactly to
`(0.45 * x - 55, 0.75 * y - 23)` and is not idempotent: applying it twice
to some point moves it further than applying it once. -/
theorem alaskaTransform_spec :
    (∀ x y : Rat, alaskaTransform (x, y) = (0.45 * x - 55, 0.75 * y - 23))
    ∧ ∃ p : Rat × Rat, alaskaTransform (alaskaTransform p) ≠ alaskaTransform p := by
  constructor
  · intro x y
    simp only [alaskaTransform, translatePt, scaleOrigin, Prod.mk.injEq]
    constructor <;> ring
  · refine ⟨(0, 0), ?_⟩
    simp only [alaskaTransform, translatePt, scaleOrigin, Prod.mk.injEq, ne_eq,
      not_and]
    intro h
    norm_num at h

/-! ## Claim C9 -/

/-- C9: `generate_map` normalizes on a copy — running the normalization
prologue leaves the caller's frame untouched while the frame it hands to
the rest of the pipeline is the normalized copy. -/
theorem normalizePrologue_preserves_input (store : FrameStore) (dfRef : Nat)
    (h : dfRef < store.length) :
    ((normalizePrologue store dfRef).1)[dfRef]? = store[dfRef]? ∧
      ((normalizePrologue store dfRef).1)[(normalizePrologue store dfRef).2]?
        = some (normalizeRows (store.getD dfRef [])) := by
  constructor
  · simp only [normalizePrologue]
    rw [List.getElem?_set_ne (by omega)]
    exact List.getElem?_append_left h
  · simp only [normalizePrologue]
    rw [List.getElem?_set_eq_of_lt _ (by simp)]
    congr 1
    simp [List.getD, List.getElem?_concat_length]

/-- C9 witness: on a one-frame store, the caller's frame is unchanged by
the prologue. -/
theorem normalizePrologue_preserves_input_witness :
    ((normalizePrologue [[⟨"501", "X"⟩]] 0).1)[0]? = some [⟨"501", "X"⟩] := by
  have h := normalizePrologue_preserves_input [[⟨"501", "X"⟩]] 0 (by decide)
  exact h.1.trans (by decide)

theorem filter_eq_of_nodup_keys (rows : List ValueRow) (z : String)
    (h : (rows.map ValueRow.key).Nodup) :
    rows.filter (fun r => r.key == z)
      = (match rows.find? (fun r => r.key == z) with
         | some r => [r]
         | none => []) := by
  induction rows with
  | nil => rfl
  | cons a t ih =>
    simp only [List.map_cons, List.nodup_cons] at h
    by_cases ha : a.key = z
    · have hbeq : (a.key == z) = true := by simp [ha]
      have ht : t.filter (fun r => r.key == z) = [] := by
        rw [List.filter_eq_nil_iff]
        intro r hr hc
        have hrz : r.key = z := by simpa using hc
        exact h.1 (List.mem_map.mpr ⟨r, hr, by rw [hrz, ha]⟩)
      simp [List.filter_cons, List.find?_cons, hbeq, ht]
    · have hbeq : (a.key == z) = false := by simp [ha]
      simp [List.filter_cons, List.find?_cons, hbeq, ih h.2]

/-! ## Claim C2 -/

/-- C2 counterexample: a table with a duplicated key joined against one
reference unit yields two output rows, not one per reference unit — the
pandas left merge repeats a geometry once per matching input row. -/
theorem join_cardinality_counterexample :
    (pipelineJoined [⟨"00501"⟩] [⟨"00501", "a"⟩, ⟨"00501", "b"⟩]).length = 2
      ∧ ¬(pipelineJoined [⟨"00501"⟩] [⟨"00501", "a"⟩, ⟨"00501", "b"⟩]).length
          = ([(⟨"00501"⟩ : GeoUnit)]).length := by
  decide

/-- C2 amended: when the normalized input keys are pairwise distinct, the
join has exactly one output row per reference unit, in reference order,
carrying the matching value or null; so `len(joined) = len(reference_units)`
holds for duplicate-free tables (with duplicate keys the merge instead
repeats the geometry once per matching row). -/
theorem join_cardinality_nodup (zip_gdf : List GeoUnit) (rows : List ValueRow)
    (h : ((normalizeRows rows).map ValueRow.key).Nodup) :
    pipelineJoined zip_gdf rows
      = zip_gdf.map (fun g =>
          match (normalizeRows rows).find? (fun r => r.key == g.zip) with
          | some r => ⟨g.zip, some r.value⟩
          | none => ⟨g.zip, none⟩)
    ∧ (pipelineJoined zip_gdf rows).length = zip_gdf.length := by
  have main : ∀ zg : List GeoUnit,
      pipelineJoined zg rows
        = zg.map (fun g =>
            match (normalizeRows rows).find? (fun r => r.key == g.zip) with
            | some r => ⟨g.zip, some r.value⟩
            | none => ⟨g.zip, none⟩) := by
    intro zg
    induction zg with
    | nil => rfl
    | cons g t ih =>
      have ih' : leftMerge t (normalizeRows rows)
          = t.map (fun g =>
              match (normalizeRows rows).find? (fun r => r.key == g.zip) with
              | some r => ⟨g.zip, some r.value⟩
              | none => ⟨g.zip, none⟩) := ih
      show leftMerge (g :: t) (normalizeRows rows) = _
      simp only [leftMerge, List.flatMap_cons, List.map_cons]
      rw [show (t.flatMap fun g =>
          let ms := (normalizeRows rows).filter (fun r => r.key == g.zip);
          if ms.isEmpty then [(⟨g.zip, none⟩ : JoinedRow)]
          else ms.map (fun r => ⟨g.zip, some r.value⟩)) = leftMerge t (normalizeRows rows) from rfl]
      rw [ih', filter_eq_of_nodup_keys _ _ h]
      cases hf : (normalizeRows rows).find? (fun r => r.key == g.zip) <;> simp
  refine ⟨main zip_gdf, ?_⟩
  rw [main zip_gdf]
  simp

/-- C2 witness: a duplicate-free two-unit reference joined with a one-row
table gives exactly two output rows. -/
theorem join_cardinality_nodup_witness :
    (pipelineJoined [⟨"00501"⟩, ⟨"00601"⟩] [⟨"501", "X"⟩]).length = 2 := by
  have h := (join_cardinality_nodup [⟨"00501"⟩, ⟨"00601"⟩] [⟨"501", "X"⟩]
    (by decide)).2
  exact h.trans (by decide)

/-! ## Claims C4 and C5: style classification -/

theorem styleEntry_isSome_iff (bc : List String) (hN : 0 < bc.length)
    (i : Nat) :
    (styleEntry bc i).isSome = true ↔ i < 5 * bc.length := by
  have hmod : i % bc.length < bc.length := Nat.mod_lt _ hN
  have hc := List.getElem?_eq_getElem hmod
  constructor
  · intro hs
    by_contra hge
    have hdiv : 5 ≤ i / bc.length := by
      rw [Nat.le_div_iff_mul_le hN]
      omega
    have hh : hatches[i / bc.length]? = none := by
      rw [List.getElem?_eq_none_iff]
      simpa [hatches] using hdiv
    rw [styleEntry, hc, hh] at hs
    simp at hs
  · intro hlt
    have hdiv : i / bc.length < 5 := by
      rw [Nat.div_lt_iff_lt_mul hN]
      omega
    have hh := List.getElem?_eq_getElem (l := hatches) (by simpa [hatches] using hdiv)
    rw [styleEntry, hc, hh]
    simp

theorem buildStyles_isSome_iff (bc : List String) (hN : 0 < bc.length) :
    ∀ (vals : List String) (i : Nat),
      (buildStyles bc i vals).isSome = true
        ↔ (vals = [] ∨ i + vals.length ≤ 5 * bc.length) := by
  intro vals
  induction vals with
  | nil => intro i; simp [buildStyles]
  | cons v rest ih =>
    intro i
    constructor
    · intro hs
      cases h1 : styleEntry bc i with
      | none => rw [buildStyles, h1] at hs; simp at hs
      | some ch =>
        cases h2 : buildStyles bc (i + 1) rest with
        | none => rw [buildStyles, h1, h2] at hs; simp at hs
        | some tl =>
          have hi : i < 5 * bc.length := by
            rw [← styleEntry_isSome_iff bc hN i, h1]
            rfl
          have hrest := (ih (i + 1)).mp (by rw [h2]; rfl)
          right
          rcases hrest with h | h
          · subst h; simpa using hi
          · simp only [List.length_cons]
            omega
    · intro hcap
      rcases hcap with h | h
      · exact absurd h (by simp)
      · simp only [List.length_cons] at h
        have h1 : (styleEntry bc i).isSome = true := by
          rw [styleEntry_isSome_iff bc hN]
          omega
        have h2 : (buildStyles bc (i + 1) rest).isSome = true := by
          rw [ih (i + 1)]
          right
          omega
        cases hs1 : styleEntry bc i with
        | none => rw [hs1] at h1; simp at h1
        | some ch =>
          cases hs2 : buildStyles bc (i + 1) rest with
          | none => rw [hs2] at h2; simp at h2
          | some tl => rw [buildStyles, hs1, hs2]; rfl

/-- C4 counterexample: six distinct values against a one-color palette
exceed the `1 × 5` palette-by-hatch capacity and style assignment fails
(the hatch index `5 // 1 = 5` is out of range for the five-element hatch
list), rather than wrapping. -/
theorem style_capacity_counterexample :
    buildStyleMap ["v1", "v2", "v3", "v4", "v5", "v6"] ["c0"] = none := by
  decide

/-- C4 amended: for a non-empty palette of length `N`, style assignment
succeeds exactly when the number of distinct values is at most `N` times
the number of hatch patterns (5); the color index wraps modulo the palette,
but the hatch index `i / N` is not reduced modulo the hatch list, so
exceeding the capacity raises an IndexError instead of wrapping. -/
theorem style_capacity_spec (vals bc : List String) (hN : 0 < bc.length) :
    (buildStyleMap vals bc).isSome = true ↔ vals.length ≤ 5 * bc.length := by
  rw [buildStyleMap, buildStyles_isSome_iff bc hN vals 0]
  constructor
  · intro h
    rcases h with h | h
    · simp [h]
    · omega
  · intro h
    right
    omega

/-- C4 witness: five distinct values on a one-color palette exactly fill
the capacity and succeed. -/
theorem style_capacity_spec_witness :
    (buildStyleMap ["v1", "v2", "v3", "v4", "v5"] ["c0"]).isSome = true :=
  (style_capacity_spec ["v1", "v2", "v3", "v4", "v5"] ["c0"]
    (by decide)).mpr (by decide)

theorem buildStyles_get (bc : List String) :
    ∀ (vals : List String) (i₀ : Nat) (sm : List (String × String × String)),
      buildStyles bc i₀ vals = some sm →
      ∀ j, j < vals.length →
        ∃ v c ht, vals[j]? = some v ∧ styleEntry bc (i₀ + j) = some (c, ht)
          ∧ sm[j]? = some (v, c, ht) := by
  intro vals
  induction vals with
  | nil =>
    intro i₀ sm _ j hj
    simp at hj
  | cons v rest ih =>
    intro i₀ sm h j hj
    cases h1 : styleEntry bc i₀ with
    | none => rw [buildStyles, h1] at h; exact absurd h (by simp)
    | some ch =>
      cases h2 : buildStyles bc (i₀ + 1) rest with
      | none => rw [buildStyles, h1, h2] at h; exact absurd h (by simp)
      | some tl =>
        rw [buildStyles, h1, h2] at h
        have hsm : sm = (v, ch.1, ch.2) :: tl := by
          cases h
          rfl
        cases j with
        | zero =>
          refine ⟨v, ch.1, ch.2, by simp, ?_, by simp [hsm]⟩
          simpa using h1
        | succ k =>
          obtain ⟨v', c, ht, hv, hs, hg⟩ :=
            ih (i₀ + 1) tl h2 k (by simpa using hj)
          refine ⟨v', c, ht, by simpa using hv, ?_, by simp [hsm, hg]⟩
          rw [show i₀ + (k + 1) = i₀ + 1 + k by omega]
          exact hs

/-- C5: in the style map built over the sorted distinct values, the value
at sorted index `i` is assigned color `palette[i % N]` and hatch
`hatches[i / N]` (`N` the palette length). -/
theorem style_assignment_spec (vals bc : List String)
    (sm : List (String × String × String))
    (h : buildStyleMap vals bc = some sm) (i : Nat) (hi : i < vals.length) :
    ∃ v c ht, vals[i]? = some v
      ∧ bc[i % bc.length]? = some c
      ∧ hatches[i / bc.length]? = some ht
      ∧ sm[i]? = some (v, c, ht) := by
  obtain ⟨v, c, ht, hv, hs, hg⟩ := buildStyles_get bc vals 0 sm h i hi
  rw [Nat.zero_add] at hs
  revert hs
  rw [styleEntry]
  cases hcv : bc[i % bc.length]? with
  | none => intro hs; exact absurd hs (by simp)
  | some c' =>
    cases hh : hatches[i / bc.length]? with
    | none => intro hs; exact absurd hs (by simp)
    | some h' =>
      intro hs
      refine ⟨v, c, ht, hv, ?_, ?_, hg⟩
      · cases hs; rfl
      · cases hs; rfl

/-- C5 witness: with a size-3 palette and sorted values `A..E`, the value
`D` at index 3 receives the first palette color and the second hatch. -/
theorem style_assignment_spec_witness :
    ∃ v c ht, (["A", "B", "C", "D", "E"] : List String)[3]? = some v
      ∧ (["p0", "p1", "p2"] :
          List String)[3 % (["p0", "p1", "p2"] : List String).length]? = some c
      ∧ hatches[3 / (["p0", "p1", "p2"] : List String).length]? = some ht
      ∧ ([("A", "p0", ""), ("B", "p1", ""), ("C", "p2", ""),
          ("D", "p0", "//"), ("E", "p1", "//")] :
          List (String × String × String))[3]? = some (v, c, ht) :=
  style_assignment_spec ["A", "B", "C", "D", "E"] ["p0", "p1", "p2"]
    [("A", "p0", ""), ("B", "p1", ""), ("C", "p2", ""),
      ("D", "p0", "//"), ("E", "p1", "//")] (by decide) 3 (by decide)

theorem zip_map_self {α β : Type} (f : α → β) (l : List α) :
    l.zip (l.map f) = l.map (fun a => (a, f a)) := by
  induction l with
  | nil => rfl
  | cons a t ih => simp [List.zip_cons_cons, ih]

theorem zip_self {α : Type} (l : List α) :
    l.zip l = l.map (fun a => (a, a)) := by
  induction l with
  | nil => rfl
  | cons a t ih => simp [List.zip_cons_cons, ih]

theorem filterMap_pair_guard (f : JoinedRow → JoinedRow)
    (l : List JoinedRow) :
    ((l.map (fun a => (a, f a))).filterMap (fun p =>
        if p.1.value.isNone then some (p.2.zip, p.2.value.getD "unassigned")
        else none))
      = (l.filter (fun r => r.value.isNone)).map
          (fun r => ((f r).zip, (f r).value.getD "unassigned")) := by
  induction l with
  | nil => rfl
  | cons a t ih =>
    rw [List.map_cons, List.filterMap_cons, List.filter_cons]
    dsimp only
    rw [ih]
    cases hv : a.value with
    | none => simp
    | some v => simp

theorem filter_isNone_leftMerge (zg : List GeoUnit) (rows : List ValueRow) :
    (leftMerge zg rows).filter (fun r => r.value.isNone)
      = (zg.filter (fun g =>
          (rows.filter (fun r => r.key == g.zip)).isEmpty)).map
          (fun g => ⟨g.zip, none⟩) := by
  induction zg with
  | nil => rfl
  | cons g t ih =>
    simp only [leftMerge, List.flatMap_cons, List.filter_append] at ih ⊢
    rw [ih]
    by_cases hm : (rows.filter (fun r => r.key == g.zip)).isEmpty = true
    · simp [List.filter_cons, hm]
    · have hnil : ((rows.filter (fun r => r.key == g.zip)).map
          (fun r => (⟨g.zip, some r.value⟩ : JoinedRow))).filter
            (fun r => r.value.isNone) = [] := by
        rw [List.filter_eq_nil_iff]
        intro a ha
        obtain ⟨r, _, hr⟩ := List.mem_map.mp ha
        rw [← hr]
        simp
      simp [List.filter_cons, hm, hnil]

theorem unassignedReport_false_eq (zg : List GeoUnit) (rows : List ValueRow) :
    unassignedReport zg rows false
      = ((pipelineJoined zg rows).filter (fun r => r.value.isNone)).map
          (fun r => (r.zip, r.value.getD "unassigned")) := by
  show ((pipelineJoined zg rows).zip (pipelineJoined zg rows)).filterMap _ = _
  rw [zip_self]
  exact filterMap_pair_guard (fun a => a) (pipelineJoined zg rows)

theorem unassignedReport_true_eq (zg : List GeoUnit) (rows : List ValueRow) :
    unassignedReport zg rows true
      = ((pipelineJoined zg rows).filter (fun r => r.value.isNone)).map
          (fun r =>
            ((imputeRow (assignedLookup (pipelineJoined zg rows)) r).zip,
             (imputeRow (assignedLookup (pipelineJoined zg rows)) r).value.getD
               "unassigned")) := by
  show ((pipelineJoined zg rows).zip
      ((pipelineJoined zg rows).map
        (imputeRow (assignedLookup (pipelineJoined zg rows))))).filterMap _ = _
  rw [zip_map_self]
  exact filterMap_pair_guard
    (imputeRow (assignedLookup (pipelineJoined zg rows)))
    (pipelineJoined zg rows)

/-! ## Claim C3 -/

/-- C3: for every table and either auto-fill setting, the unassigned report
has one row per reference unit that was unmatched before imputation — its
keys are exactly the unmatched units' ZIP codes in reference order, and its
length equals the pre-imputation null count, independent of auto-fill. -/
theorem unassigned_report_spec (zip_gdf : List GeoUnit) (rows : List ValueRow)
    (b : Bool) :
    (unassignedReport zip_gdf rows b).map Prod.fst
      = (zip_gdf.filter (fun g =>
          ((normalizeRows rows).filter (fun r => r.key == g.zip)).isEmpty)).map
          (fun g => g.zip)
    ∧ (unassignedReport zip_gdf rows b).length
      = ((pipelineJoined zip_gdf rows).filter
          (fun r => r.value.isNone)).length := by
  have hfilter : (pipelineJoined zip_gdf rows).filter (fun r => r.value.isNone)
      = (zip_gdf.filter (fun g =>
          ((normalizeRows rows).filter (fun r => r.key == g.zip)).isEmpty)).map
          (fun g => ⟨g.zip, none⟩) :=
    filter_isNone_leftMerge zip_gdf (normalizeRows rows)
  cases b with
  | false =>
    rw [unassignedReport_false_eq]
    refine ⟨?_, by simp⟩
    rw [hfilter]
    simp [List.map_map, Function.comp]
  | true =>
    rw [unassignedReport_true_eq]
    refine ⟨?_, by simp⟩
    rw [hfilter]
    simp [List.map_map, Function.comp, imputeRow]

/-! ## Claim C10 -/

theorem imputeRow_some (lookup : Int → Option String) (r : JoinedRow)
    (v : String) (h : r.value = some v) : imputeRow lookup r = r := by
  unfold imputeRow
  rw [h]

theorem imputeRow_none (lookup : Int → Option String) (r : JoinedRow)
    (h : r.value = none) :
    imputeRow lookup r
      = ⟨r.zip, some (find_nearest_value (zipInt r.zip) lookup 500)⟩ := by
  unfold imputeRow
  rw [h]

theorem lookup_mem {l : List (Int × String)} {z : Int} {v : String}
    (h : l.lookup z = some v) : (z, v) ∈ l := by
  induction l with
  | nil => simp [List.lookup] at h
  | cons p t ih =>
    rcases p with ⟨k, b⟩
    rw [List.lookup_cons] at h
    by_cases hk : (z == k) = true
    · have hz : z = k := by simpa using hk
      rw [hk] at h
      simp only [Option.some.injEq] at h
      rw [hz, h]
      exact List.mem_cons_self _ _
    · have hk' : (z == k) = false := by simpa using hk
      rw [hk'] at h
      exact List.mem_cons_of_mem _ (ih h)

theorem assignedLookup_mem {gdf : List JoinedRow} {z : Int} {v : String}
    (h : assignedLookup gdf z = some v) :
    ∃ r ∈ gdf, r.value = some v := by
  have hmem := lookup_mem h
  rw [List.mem_reverse] at hmem
  obtain ⟨r, hr, hrv⟩ := List.mem_filterMap.mp hmem
  obtain ⟨w, hw, hweq⟩ := Option.map_eq_some'.mp hrv
  have hv : w = v := by
    have := congrArg Prod.snd hweq
    simpa using this
  exact ⟨r, hr, by rw [hw, hv]⟩

/-- C10: auto-fill never invents values — a unit matched in the join keeps
its joined value, and an originally-unassigned unit ends with either the
sentinel `"unassigned"` or a value that some unit already carried after the
join (a value supplied in the input table). -/
theorem imputation_no_invented_values (zip_gdf : List GeoUnit)
    (rows : List ValueRow) (p : JoinedRow × JoinedRow)
    (hp : p ∈ (pipelineJoined zip_gdf rows).zip
        (pipelineAfterFill zip_gdf rows true)) :
    (∀ v, p.1.value = some v → p.2.value = some v)
    ∧ (p.1.value = none →
        ∃ w, p.2.value = some w
          ∧ (w = "unassigned"
             ∨ ∃ r ∈ pipelineJoined zip_gdf rows, r.value = some w)) := by
  have hfill : pipelineAfterFill zip_gdf rows true
      = (pipelineJoined zip_gdf rows).map
          (imputeRow (assignedLookup (pipelineJoined zip_gdf rows))) := rfl
  rw [hfill, zip_map_self] at hp
  obtain ⟨r, hr, hpr⟩ := List.mem_map.mp hp
  subst hpr
  dsimp only
  cases hv : r.value with
  | some v =>
    refine ⟨?_, ?_⟩
    · intro v' hv'
      rw [imputeRow_some _ r v hv, hv]
      exact hv'
    · intro hnone
      exact absurd hnone (by simp)
  | none =>
    refine ⟨?_, ?_⟩
    · intro v' hv'
      exact absurd hv' (by simp)
    · intro _
      rw [imputeRow_none _ r hv]
      refine ⟨find_nearest_value (zipInt r.zip)
        (assignedLookup (pipelineJoined zip_gdf rows)) 500, rfl, ?_⟩
      rcases findNearestFrom_range (zipInt r.zip)
        (assignedLookup (pipelineJoined zip_gdf rows)) 500 1 with h | ⟨k, hk⟩
      · left
        exact h
      · right
        exact assignedLookup_mem hk

/-- C10 witness: with `00501` assigned `X` and `00502` unmatched, the
filled value of `00502` is a value some joined unit already carried. -/
theorem imputation_no_invented_values_witness :
    ∃ w, (⟨"00502", some "X"⟩ : JoinedRow).value = some w
      ∧ (w = "unassigned"
         ∨ ∃ r ∈ pipelineJoined [⟨"00501"⟩, ⟨"00502"⟩] [⟨"501", "X"⟩],
             r.value = some w) := by
  have h := imputation_no_invented_values [⟨"00501"⟩, ⟨"00502"⟩]
    [⟨"501", "X"⟩] (⟨"00502", none⟩, ⟨"00502", some "X"⟩) (by decide)
  exact h.2 rfl

end ZipMap
